import Mathlib

/-!
Verification of the agnes-bot-pro trading dashboard against its specification.

This file gives a shallow embedding of the parts of the JavaScript source that
the specification's claims are about:

* `lib/security/csrf-protection.js` — the `CSRFProtection` token service and
  the `RateLimiter` sliding-window limiter with progressive blocking;
* `lib/trading-apis/binance-api.js` — order validation, demo-mode order
  placement, and the market-data/account fallback paths;
* the `UnifiedTradingManager` (order authorization and position updates from
  fills);
* the ICT strategy's fair-value-gap detector and the RSI indicator.

Modelling conventions: JavaScript strings are `List Char` (`JSStr`); JS
numbers are `ℚ` (for prices/quantities) or `Int`/`Nat` (for millisecond
timestamps); `undefined`/thrown errors are `Option`/`Except`. Library
functions from the JS runtime (HMAC, base64) are parameters of the
definitions, constrained only by the properties the runtime guarantees.
-/

namespace Agnes

/-- JavaScript strings, modelled as their character sequences. -/
abbrev JSStr := List Char

/-- `String.prototype.split(sep)` for a single-character separator.
JS `split` always returns at least one (possibly empty) piece. -/
def jsSplit (sep : Char) : JSStr → List JSStr
  | [] => [[]]
  | c :: rest =>
    if c = sep then [] :: jsSplit sep rest
    else
      match jsSplit sep rest with
      | [] => [[c]]
      | p :: ps => (c :: p) :: ps

theorem jsSplit_ne_nil (sep : Char) (l : JSStr) : jsSplit sep l ≠ [] := by
  induction l with
  | nil => simp [jsSplit]
  | cons c rest ih =>
    simp only [jsSplit]
    split
    · simp
    · split
      · simp
      · simp

theorem jsSplit_of_not_mem {sep : Char} {l : JSStr} (h : sep ∉ l) :
    jsSplit sep l = [l] := by
  induction l with
  | nil => rfl
  | cons c rest ih =>
    simp only [List.mem_cons, not_or] at h
    have hc : ¬ c = sep := fun hcc => h.1 hcc.symm
    rw [jsSplit, if_neg hc, ih h.2]

theorem jsSplit_append {sep : Char} {s : JSStr} (h : sep ∉ s) (t : JSStr) :
    jsSplit sep (s ++ sep :: t) = s :: jsSplit sep t := by
  induction s with
  | nil => simp [jsSplit]
  | cons c rest ih =>
    simp only [List.mem_cons, not_or] at h
    have hc : ¬ c = sep := fun hcc => h.1 hcc.symm
    rw [List.cons_append, jsSplit, if_neg hc, ih h.2]

/-- The character for decimal digit `d` (`0 ≤ d ≤ 9`). -/
def digitChar (d : Nat) : Char := Char.ofNat (48 + d)

/-- Fuel-driven digit expansion; any `fuel > n` yields the decimal digits
of `n` (most significant first). -/
def natReprAux : Nat → Nat → JSStr
  | 0, _ => []
  | fuel + 1, n =>
    if n < 10 then [digitChar n]
    else natReprAux fuel (n / 10) ++ [digitChar (n % 10)]

/-- Decimal representation of a natural number, as produced by JS template
interpolation of `Date.now()` into the token payload. -/
def natRepr (n : Nat) : JSStr := natReprAux (n + 1) n

/-- Value of a list of decimal digit characters. -/
def digitsVal (l : JSStr) : Nat :=
  l.foldl (fun a c => 10 * a + (c.toNat - 48)) 0

/-- JS `parseInt` restricted to its use on token timestamps: reads the
leading run of decimal digits; `none` models `NaN`. (Sign and whitespace
handling of full `parseInt` is irrelevant here: the inputs are produced by
`split(':')` of payloads whose timestamp field is all digits.) -/
def jsParseInt (l : JSStr) : Option Nat :=
  let ds := l.takeWhile Char.isDigit
  if ds.isEmpty then none else some (digitsVal ds)

theorem digitChar_toNat {d : Nat} (h : d < 10) : (digitChar d).toNat = 48 + d := by
  interval_cases d <;> decide

theorem digitChar_isDigit {d : Nat} (h : d < 10) : (digitChar d).isDigit = true := by
  interval_cases d <;> decide

theorem natRepr_ne_nil (n : Nat) : natRepr n ≠ [] := by
  rw [natRepr, natReprAux]
  split <;> simp

theorem natReprAux_all_digits :
    ∀ fuel n, n < fuel → ∀ c ∈ natReprAux fuel n, c.isDigit := by
  intro fuel
  induction fuel with
  | zero => omega
  | succ f ih =>
    intro n hn c hc
    rw [natReprAux] at hc
    split at hc
    · next h => simp at hc; subst hc; exact digitChar_isDigit h
    · next h =>
      simp only [List.mem_append, List.mem_singleton] at hc
      rcases hc with hc | hc
      · have hdiv : n / 10 < f := by
          have := Nat.div_lt_self (show 0 < n by omega) (show 1 < 10 by omega)
          omega
        exact ih (n / 10) hdiv c hc
      · subst hc; exact digitChar_isDigit (Nat.mod_lt _ (by omega))

theorem natRepr_all_digits (n : Nat) : ∀ c ∈ natRepr n, c.isDigit :=
  natReprAux_all_digits (n + 1) n (by omega)

theorem digitsVal_append_digit (l : JSStr) (c : Char) :
    digitsVal (l ++ [c]) = 10 * digitsVal l + (c.toNat - 48) := by
  simp [digitsVal, List.foldl_append]

theorem digitsVal_natReprAux :
    ∀ fuel n, n < fuel → digitsVal (natReprAux fuel n) = n := by
  intro fuel
  induction fuel with
  | zero => omega
  | succ f ih =>
    intro n hn
    rw [natReprAux]
    split
    · next h => simp [digitsVal, digitChar_toNat h]
    · next h =>
      have hdiv : n / 10 < f := by
        have := Nat.div_lt_self (show 0 < n by omega) (show 1 < 10 by omega)
        omega
      rw [digitsVal_append_digit, ih (n / 10) hdiv,
        digitChar_toNat (Nat.mod_lt _ (by omega))]
      omega

theorem digitsVal_natRepr (n : Nat) : digitsVal (natRepr n) = n :=
  digitsVal_natReprAux (n + 1) n (by omega)

theorem jsParseInt_natRepr (n : Nat) : jsParseInt (natRepr n) = some n := by
  have hall : (natRepr n).takeWhile Char.isDigit = natRepr n :=
    List.takeWhile_eq_self_iff.mpr (by simpa using natRepr_all_digits n)
  simp only [jsParseInt, hall]
  rw [if_neg (by simpa [List.isEmpty_iff] using natRepr_ne_nil n)]
  rw [digitsVal_natRepr]

theorem natRepr_no_colon (n : Nat) : (':' : Char) ∉ natRepr n := by
  intro h
  have := natRepr_all_digits n ':' h
  simp [Char.isDigit] at this

theorem natRepr_no_dot (n : Nat) : ('.' : Char) ∉ natRepr n := by
  intro h
  have := natRepr_all_digits n '.' h
  simp [Char.isDigit] at this

/-! ## CSRFProtection (src/lib/security/csrf-protection.js, lines 8-73)

`generateToken` builds `base64(sessionId:timestamp:randomHex) + "." +
hmacSha256Hex(secret, payload)`; `validateToken` parses the pieces back and
checks session, expiry and signature in that order.  The runtime functions
`crypto.createHmac(...).digest('hex')` and base64 encoding/decoding are
parameters `hmac`, `b64enc`, `b64dec`; theorems assume of them only what the
Node.js runtime guarantees (decode inverts encode; hex and base64 output
alphabets contain no `.`; outputs of nonempty inputs are nonempty). -/

/-- Configuration of a `CSRFProtection` instance: the HMAC secret and the
token `maxAge` in milliseconds (default 3600000). -/
structure CSRFConfig where
  secret : JSStr
  maxAge : Int

/-- The payload string `sessionId:timestamp:randomHex` of `generateToken`. -/
def csrfPayload (sessionId : JSStr) (timestamp : Nat) (randomHex : JSStr) : JSStr :=
  sessionId ++ [':'] ++ natRepr timestamp ++ [':'] ++ randomHex

/-- `CSRFProtection.generateToken`.  `timestamp` is the `Date.now()` value and
`randomHex` the hex rendering of `crypto.randomBytes(tokenLength)`. -/
def generateToken (hmac : JSStr → JSStr → JSStr) (b64enc : JSStr → JSStr)
    (cfg : CSRFConfig) (sessionId : JSStr) (timestamp : Nat) (randomHex : JSStr) : JSStr :=
  let payload := csrfPayload sessionId timestamp randomHex
  b64enc payload ++ ['.'] ++ hmac cfg.secret payload

/-- Result of `validateToken`: `{valid:false, reason}` or `{valid:true, age}`.
`age` is `none` when the parsed timestamp was `NaN`. -/
inductive CSRFResult where
  | invalid (reason : String)
  | ok (age : Option Int)
deriving DecidableEq

/-- `token.split('.')[0]` (`payloadB64` in the source). -/
def tokenPayloadB64 (token : JSStr) : JSStr := (jsSplit '.' token).headD []

/-- `token.split('.')[1]` (`signature` in the source); `[]` models both the
empty string and `undefined`, which the source treats alike (both falsy). -/
def tokenSignature (token : JSStr) : JSStr := ((jsSplit '.' token).drop 1).headD []

/-- `payload.split(':')[0]` (`tokenSessionId` in the source). -/
def payloadSessionId (payload : JSStr) : JSStr := (jsSplit ':' payload).headD []

/-- `payload.split(':')[1]` (the embedded `timestamp` string). -/
def payloadTimestampStr (payload : JSStr) : JSStr := ((jsSplit ':' payload).drop 1).headD []

/-- `CSRFProtection.validateToken(token, sessionId)` at clock value `now`.
The checks appear in source order: missing token, format, session match,
expiry (`Date.now() - parseInt(timestamp) > maxAge`; a `NaN` timestamp never
compares greater), signature. -/
def validateToken (hmac : JSStr → JSStr → JSStr) (b64dec : JSStr → JSStr)
    (cfg : CSRFConfig) (token sessionId : JSStr) (now : Int) : CSRFResult :=
  if token.isEmpty then .invalid "missing_token"
  else
    let payloadB64 := tokenPayloadB64 token
    let signature := tokenSignature token
    if payloadB64.isEmpty ∨ signature.isEmpty then .invalid "invalid_format"
    else
      let payload := b64dec payloadB64
      let tokenSessionId := payloadSessionId payload
      let timestampStr := payloadTimestampStr payload
      if tokenSessionId ≠ sessionId then .invalid "session_mismatch"
      else
        let tsOpt := jsParseInt timestampStr
        let expired := match tsOpt with
          | some ts => decide (now - (ts : Int) > cfg.maxAge)
          | none => false
        if expired then .invalid "token_expired"
        else if signature ≠ hmac cfg.secret payload then .invalid "invalid_signature"
        else .ok (tsOpt.map (fun ts => now - (ts : Int)))

theorem csrfPayload_parts (sessionId : JSStr) (timestamp : Nat) (randomHex : JSStr)
    (hsess : (':' : Char) ∉ sessionId) :
    payloadSessionId (csrfPayload sessionId timestamp randomHex) = sessionId ∧
    payloadTimestampStr (csrfPayload sessionId timestamp randomHex) = natRepr timestamp := by
  have h1 : csrfPayload sessionId timestamp randomHex
      = sessionId ++ ':' :: (natRepr timestamp ++ ':' :: randomHex) := by
    simp [csrfPayload]
  have h2 : jsSplit ':' (csrfPayload sessionId timestamp randomHex)
      = sessionId :: natRepr timestamp :: jsSplit ':' randomHex := by
    rw [h1, jsSplit_append hsess, jsSplit_append (natRepr_no_colon timestamp)]
  constructor
  · simp [payloadSessionId, h2]
  · simp [payloadTimestampStr, h2]

theorem generateToken_parts (hmac : JSStr → JSStr → JSStr) (b64enc : JSStr → JSStr)
    (cfg : CSRFConfig) (sessionId : JSStr) (timestamp : Nat) (randomHex : JSStr)
    (hencNoDot : ('.' : Char) ∉ b64enc (csrfPayload sessionId timestamp randomHex))
    (hsigNoDot : ('.' : Char) ∉ hmac cfg.secret (csrfPayload sessionId timestamp randomHex)) :
    tokenPayloadB64 (generateToken hmac b64enc cfg sessionId timestamp randomHex)
      = b64enc (csrfPayload sessionId timestamp randomHex) ∧
    tokenSignature (generateToken hmac b64enc cfg sessionId timestamp randomHex)
      = hmac cfg.secret (csrfPayload sessionId timestamp randomHex) := by
  have h1 : generateToken hmac b64enc cfg sessionId timestamp randomHex
      = b64enc (csrfPayload sessionId timestamp randomHex)
        ++ '.' :: hmac cfg.secret (csrfPayload sessionId timestamp randomHex) := by
    simp [generateToken]
  have h2 : jsSplit '.' (generateToken hmac b64enc cfg sessionId timestamp randomHex)
      = b64enc (csrfPayload sessionId timestamp randomHex)
        :: [hmac cfg.secret (csrfPayload sessionId timestamp randomHex)] := by
    rw [h1, jsSplit_append hencNoDot, jsSplit_of_not_mem hsigNoDot]
  constructor
  · simp [tokenPayloadB64, h2]
  · simp [tokenSignature, h2]

/-- C2: for every sessionId containing no `':'`, a token produced by
`generateToken(sessionId)` is accepted by `validateToken(token, sessionId)`
on the same instance (same secret) when validated within `maxAge`
milliseconds of generation: the result is `{valid: true}` with a
non-negative age.  The runtime assumptions on the HMAC/base64 library
functions are: base64 decoding inverts encoding, and both the base64 and
hex-HMAC outputs are nonempty and dot-free (true of their alphabets). -/
theorem generated_token_validates
    (hmac : JSStr → JSStr → JSStr) (b64enc b64dec : JSStr → JSStr)
    (cfg : CSRFConfig) (sessionId : JSStr) (timestamp : Nat) (randomHex : JSStr) (now : Int)
    (hb64 : b64dec (b64enc (csrfPayload sessionId timestamp randomHex))
              = csrfPayload sessionId timestamp randomHex)
    (hencNoDot : ('.' : Char) ∉ b64enc (csrfPayload sessionId timestamp randomHex))
    (hencNe : b64enc (csrfPayload sessionId timestamp randomHex) ≠ [])
    (hsigNoDot : ('.' : Char) ∉ hmac cfg.secret (csrfPayload sessionId timestamp randomHex))
    (hsigNe : hmac cfg.secret (csrfPayload sessionId timestamp randomHex) ≠ [])
    (hsess : (':' : Char) ∉ sessionId)
    (hpast : (timestamp : Int) ≤ now)
    (hage : now - (timestamp : Int) ≤ cfg.maxAge) :
    validateToken hmac b64dec cfg
        (generateToken hmac b64enc cfg sessionId timestamp randomHex) sessionId now
      = .ok (some (now - (timestamp : Int))) ∧ 0 ≤ now - (timestamp : Int) := by
  have hps := csrfPayload_parts sessionId timestamp randomHex hsess
  have hgp := generateToken_parts hmac b64enc cfg sessionId timestamp randomHex hencNoDot hsigNoDot
  have hTok : (generateToken hmac b64enc cfg sessionId timestamp randomHex).isEmpty = false := by
    have h1 : generateToken hmac b64enc cfg sessionId timestamp randomHex
        = b64enc (csrfPayload sessionId timestamp randomHex)
          ++ '.' :: hmac cfg.secret (csrfPayload sessionId timestamp randomHex) := by
      simp [generateToken]
    rw [h1]
    simp [List.isEmpty_iff]
  refine ⟨?_, by omega⟩
  rw [validateToken, hTok]
  simp only [Bool.false_eq_true, if_false]
  rw [if_neg (by
    rw [hgp.1, hgp.2]
    push_neg
    exact ⟨by simpa [List.isEmpty_iff] using hencNe,
           by simpa [List.isEmpty_iff] using hsigNe⟩)]
  rw [hgp.1, hgp.2, hb64]
  rw [if_neg (by rw [hps.1]; simp)]
  rw [hps.2, jsParseInt_natRepr]
  simp only [Option.map_some]
  rw [if_neg (by simp; omega)]
  rw [if_neg (by simp)]
  simp

/-- Witness for `generated_token_validates` at a concrete instantiation
(identity base64, `hmac k m = m`, session `"a"`, timestamp 5, validated at
time 7 with `maxAge = 1000`). -/
theorem generated_token_validates_witness :
    validateToken (fun _ m => m) (fun s => s)
        (CSRFConfig.mk ['s'] 1000)
        (generateToken (fun _ m => m) (fun s => s)
          (CSRFConfig.mk ['s'] 1000) ['a'] 5 ['b', 'c']) ['a'] 7
      = .ok (some 2) ∧ (0 : Int) ≤ 2 :=
  generated_token_validates (fun _ m => m) (fun s => s) (fun s => s)
    (CSRFConfig.mk ['s'] 1000) ['a'] 5 ['b', 'c'] 7
    rfl (by decide) (by decide) (by decide) (by decide) (by decide)
    (by decide) (by decide)

/-- C8: `validateToken` rejects invalid tokens with a specific reason, in the
source's check order: `session_mismatch` when the token's embedded session id
differs from the supplied one, `token_expired` when the (parseable) embedded
timestamp is older than `maxAge`, `invalid_signature` when the signature part
does not equal the HMAC of the payload under the instance secret; and (the
safety direction) every accepted token has a matching session id, a matching
signature, and — whenever its timestamp parses — an age within `maxAge`. -/
theorem validateToken_rejects_invalid
    (hmac : JSStr → JSStr → JSStr) (b64dec : JSStr → JSStr)
    (cfg : CSRFConfig) (token sessionId : JSStr) (now : Int) :
    (token ≠ [] → tokenPayloadB64 token ≠ [] → tokenSignature token ≠ [] →
      ((payloadSessionId (b64dec (tokenPayloadB64 token)) ≠ sessionId →
          validateToken hmac b64dec cfg token sessionId now = .invalid "session_mismatch") ∧
       (payloadSessionId (b64dec (tokenPayloadB64 token)) = sessionId →
        ∀ ts, jsParseInt (payloadTimestampStr (b64dec (tokenPayloadB64 token))) = some ts →
          now - (ts : Int) > cfg.maxAge →
          validateToken hmac b64dec cfg token sessionId now = .invalid "token_expired") ∧
       (payloadSessionId (b64dec (tokenPayloadB64 token)) = sessionId →
        (∀ ts, jsParseInt (payloadTimestampStr (b64dec (tokenPayloadB64 token))) = some ts →
          now - (ts : Int) ≤ cfg.maxAge) →
        tokenSignature token ≠ hmac cfg.secret (b64dec (tokenPayloadB64 token)) →
          validateToken hmac b64dec cfg token sessionId now = .invalid "invalid_signature"))) ∧
    (∀ age, validateToken hmac b64dec cfg token sessionId now = .ok age →
      payloadSessionId (b64dec (tokenPayloadB64 token)) = sessionId ∧
      tokenSignature token = hmac cfg.secret (b64dec (tokenPayloadB64 token)) ∧
      ∀ ts, jsParseInt (payloadTimestampStr (b64dec (tokenPayloadB64 token))) = some ts →
        now - (ts : Int) ≤ cfg.maxAge ∧ age = some (now - (ts : Int))) := by
  constructor
  · intro hTok hPB hSig
    have hTok' : token.isEmpty = false := by simpa [List.isEmpty_iff] using hTok
    have hfmt : ¬((tokenPayloadB64 token).isEmpty = true ∨
        (tokenSignature token).isEmpty = true) := by
      push_neg
      exact ⟨by simpa [List.isEmpty_iff] using hPB, by simpa [List.isEmpty_iff] using hSig⟩
    refine ⟨?_, ?_, ?_⟩
    · intro hmis
      rw [validateToken, hTok']
      simp only [Bool.false_eq_true, if_false]
      rw [if_neg hfmt, if_pos hmis]
    · intro hsess ts hts hexp
      rw [validateToken, hTok']
      simp only [Bool.false_eq_true, if_false]
      rw [if_neg hfmt, if_neg (by simp [hsess]), hts]
      simp only []
      rw [if_pos (by simpa using hexp)]
    · intro hsess hnexp hsig
      rw [validateToken, hTok']
      simp only [Bool.false_eq_true, if_false]
      rw [if_neg hfmt, if_neg (by simp [hsess])]
      cases heq : jsParseInt (payloadTimestampStr (b64dec (tokenPayloadB64 token))) with
      | none =>
        simp only [Bool.false_eq_true, if_false]
        rw [if_pos hsig]
      | some ts =>
        simp only []
        rw [if_neg (by simpa using not_lt.mpr (hnexp ts heq)), if_pos hsig]
  · intro age h
    rw [validateToken] at h
    by_cases hTok' : token.isEmpty = true
    · rw [if_pos hTok'] at h; exact absurd h (by simp)
    · rw [if_neg hTok'] at h
      by_cases hfmt : (tokenPayloadB64 token).isEmpty = true ∨
          (tokenSignature token).isEmpty = true
      · rw [if_pos hfmt] at h; exact absurd h (by simp)
      · rw [if_neg hfmt] at h
        by_cases hsess : payloadSessionId (b64dec (tokenPayloadB64 token)) ≠ sessionId
        · rw [if_pos hsess] at h; exact absurd h (by simp)
        · rw [if_neg hsess] at h
          push_neg at hsess
          refine ⟨hsess, ?_⟩
          cases heq : jsParseInt (payloadTimestampStr (b64dec (tokenPayloadB64 token))) with
          | none =>
            rw [heq] at h
            simp only [Bool.false_eq_true, if_false] at h
            by_cases hsig : tokenSignature token
                ≠ hmac cfg.secret (b64dec (tokenPayloadB64 token))
            · rw [if_pos hsig] at h; exact absurd h (by simp)
            · rw [if_neg hsig] at h
              push_neg at hsig
              exact ⟨hsig, fun ts hts => absurd hts (by simp)⟩
          | some ts =>
            rw [heq] at h
            simp only [] at h
            by_cases hexp : now - (ts : Int) > cfg.maxAge
            · rw [if_pos (by simpa using hexp)] at h; exact absurd h (by simp)
            · rw [if_neg (by simpa using hexp)] at h
              by_cases hsig : tokenSignature token
                  ≠ hmac cfg.secret (b64dec (tokenPayloadB64 token))
              · rw [if_pos hsig] at h; exact absurd h (by simp)
              · rw [if_neg hsig] at h
                push_neg at hsig
                refine ⟨hsig, fun ts2 hts2 => ?_⟩
                injection hts2 with h2
                subst h2
                simp at h
                exact ⟨by omega, h.symm⟩

/-- Witness for `validateToken_rejects_invalid`: a token whose embedded
session id `"x"` differs from the supplied `"y"` is rejected with
`session_mismatch` (identity base64, `hmac k m = m`). -/
theorem validateToken_rejects_invalid_witness :
    validateToken (fun _ m => m) (fun s => s) (CSRFConfig.mk ['s'] 1000)
        (['x', ':', '1', ':', 'r'] ++ '.' :: ['x', ':', '1', ':', 'r']) ['y'] 7
      = .invalid "session_mismatch" :=
  ((validateToken_rejects_invalid (fun _ m => m) (fun s => s)
      (CSRFConfig.mk ['s'] 1000)
      (['x', ':', '1', ':', 'r'] ++ '.' :: ['x', ':', '1', ':', 'r']) ['y'] 7).1
    (by decide) (by decide) (by decide)).1 (by decide)

/-! ## ICTStrategy.detectFVG (src/unnamed/part_010, lines 24-50)

JS numbers carrying prices are modelled as rationals. -/

/-- A price candle; only the fields `detectFVG` reads are modelled. -/
structure Candle where
  high : ℚ
  low : ℚ
  timestamp : ℚ
deriving DecidableEq

/-- A fair value gap, as returned by `detectFVG`. -/
structure FVG where
  type : String
  high : ℚ
  low : ℚ
  timestamp : ℚ
deriving DecidableEq

/-- `candles.slice(-3)`: the last three candles. -/
def lastThree (candles : List Candle) : List Candle :=
  candles.drop (candles.length - 3)

/-- `ICTStrategy.detectFVG(candles)`: `null` below 3 candles; a bullish gap
when `candle1.high < candle3.low`, else a bearish gap when
`candle1.low > candle3.high`, else `null`. -/
def detectFVG (candles : List Candle) : Option FVG :=
  if candles.length < 3 then none
  else
    match lastThree candles with
    | [c1, _, c3] =>
      if c1.high < c3.low then
        some ⟨"bullish", c3.low, c1.high, c3.timestamp⟩
      else if c1.low > c3.high then
        some ⟨"bearish", c1.low, c3.high, c3.timestamp⟩
      else none
    | _ => none

theorem lastThree_of_three_le {candles : List Candle} (h : 3 ≤ candles.length) :
    ∃ c1 c2 c3, lastThree candles = [c1, c2, c3] := by
  have h3 : (lastThree candles).length = 3 := by
    simp only [lastThree, List.length_drop]
    omega
  exact List.length_eq_three.mp h3

/-- C10: `detectFVG` returns `none` on fewer than 3 candles; every returned
gap has strictly ordered bounds `low < high`; and on the last three candles
(whose `low ≤ high`, as for any real OHLC bar) it returns the bullish gap
`⟨low := first.high, high := third.low⟩` exactly when `first.high <
third.low`, and the bearish gap `⟨low := third.high, high := first.low⟩`
exactly when `first.low > third.high`. -/
theorem detectFVG_spec (candles : List Candle) :
    (candles.length < 3 → detectFVG candles = none) ∧
    (∀ g, detectFVG candles = some g → g.low < g.high) ∧
    (∀ c1 c2 c3, lastThree candles = [c1, c2, c3] → 3 ≤ candles.length →
      c1.low ≤ c1.high → c3.low ≤ c3.high →
      ((detectFVG candles = some ⟨"bullish", c3.low, c1.high, c3.timestamp⟩
          ↔ c1.high < c3.low) ∧
       (detectFVG candles = some ⟨"bearish", c1.low, c3.high, c3.timestamp⟩
          ↔ c1.low > c3.high))) := by
  refine ⟨fun h => by rw [detectFVG, if_pos h], ?_, ?_⟩
  · intro g hg
    rw [detectFVG] at hg
    by_cases hlen : candles.length < 3
    · rw [if_pos hlen] at hg; exact absurd hg (by simp)
    · rw [if_neg hlen] at hg
      obtain ⟨c1, c2, c3, hl⟩ := @lastThree_of_three_le candles (by omega)
      rw [hl] at hg
      simp only [] at hg
      by_cases h1 : c1.high < c3.low
      · rw [if_pos h1] at hg
        cases hg
        simpa using h1
      · rw [if_neg h1] at hg
        by_cases h2 : c1.low > c3.high
        · rw [if_pos h2] at hg
          cases hg
          simpa using h2
        · rw [if_neg h2] at hg; exact absurd hg (by simp)
  · intro c1 c2 c3 hl hlen hw1 hw3
    have hnl : ¬ candles.length < 3 := by omega
    constructor
    · constructor
      · intro hg
        rw [detectFVG, if_neg hnl, hl] at hg
        simp only [] at hg
        by_cases h1 : c1.high < c3.low
        · exact h1
        · rw [if_neg h1] at hg
          by_cases h2 : c1.low > c3.high
          · rw [if_pos h2] at hg
            simp only [Option.some_inj, FVG.mk.injEq] at hg
            exact absurd hg.1 (by decide)
          · rw [if_neg h2] at hg; exact absurd hg (by simp)
      · intro h1
        rw [detectFVG, if_neg hnl, hl]
        simp only []
        rw [if_pos h1]
    · constructor
      · intro hg
        rw [detectFVG, if_neg hnl, hl] at hg
        simp only [] at hg
        by_cases h1 : c1.high < c3.low
        · rw [if_pos h1] at hg
          simp only [Option.some_inj, FVG.mk.injEq] at hg
          exact absurd hg.1 (by decide)
        · rw [if_neg h1] at hg
          by_cases h2 : c1.low > c3.high
          · exact h2
          · rw [if_neg h2] at hg; exact absurd hg (by simp)
      · intro h2
        have h1 : ¬ c1.high < c3.low := by
          intro h1
          have : c1.low < c1.low := by
            calc c1.low ≤ c1.high := hw1
              _ < c3.low := h1
              _ ≤ c3.high := hw3
              _ < c1.low := h2
          exact absurd this (lt_irrefl _)
        rw [detectFVG, if_neg hnl, hl]
        simp only []
        rw [if_neg h1, if_pos h2]

/-- Witness for `detectFVG_spec`: three concrete candles whose first low
(9) exceeds the third's high (8) yield the bearish gap `(8, 9)`. -/
theorem detectFVG_spec_witness :
    detectFVG [Candle.mk 10 9 1, Candle.mk 9 8 2, Candle.mk 8 7 3]
      = some (FVG.mk "bearish" 9 8 3) :=
  ((detectFVG_spec [Candle.mk 10 9 1, Candle.mk 9 8 2, Candle.mk 8 7 3]).2.2
    (Candle.mk 10 9 1) (Candle.mk 9 8 2) (Candle.mk 8 7 3)
    (by decide) (by decide) (by decide) (by decide)).2.mpr (by decide)

/-! ## RSI indicator (src/unnamed/part_010, lines 141-177)

The class keeps the last `period + 1` prices and the last `period`
gains/losses; `getValue` returns 50 before enough data, 100 when the average
loss vanishes, and the textbook `100 - 100/(1 + rs)` otherwise. -/

/-- The mutable fields of the JS `RSI` object. -/
structure RSIState where
  period : Nat
  prices : List ℚ
  gains : List ℚ
  losses : List ℚ
deriving DecidableEq

/-- `new RSI(period)`. -/
def rsiInit (period : Nat) : RSIState := ⟨period, [], [], []⟩

/-- `RSI.update(price)`: push the price; if there was a previous price,
record the change's gain (`change > 0 ? change : 0`) and loss
(`change < 0 ? Math.abs(change) : 0`); then `shift()` each array once if the
price window exceeds `period + 1` entries. -/
def rsiUpdate (s : RSIState) (price : ℚ) : RSIState :=
  let prices := s.prices ++ [price]
  let gains := match s.prices.getLast? with
    | none => s.gains
    | some prev => s.gains ++ [if price - prev > 0 then price - prev else 0]
  let losses := match s.prices.getLast? with
    | none => s.losses
    | some prev => s.losses ++ [if price - prev < 0 then |price - prev| else 0]
  if prices.length > s.period + 1 then
    ⟨s.period, prices.tail, gains.tail, losses.tail⟩
  else
    ⟨s.period, prices, gains, losses⟩

/-- `RSI.getValue()`. -/
def rsiGetValue (s : RSIState) : ℚ :=
  if s.gains.length < s.period then 50
  else
    let avgGain := s.gains.sum / (s.period : ℚ)
    let avgLoss := s.losses.sum / (s.period : ℚ)
    if avgLoss = 0 then 100
    else 100 - 100 / (1 + avgGain / avgLoss)

/-- Feeding a whole price series through `update`, starting from a fresh
`RSI(period)`. -/
def rsiRun (period : Nat) (prices : List ℚ) : RSIState :=
  prices.foldl rsiUpdate (rsiInit period)

/-- The successive price changes `prices[i+1] - prices[i]`. -/
def priceChanges : List ℚ → List ℚ
  | a :: b :: rest => (b - a) :: priceChanges (b :: rest)
  | _ => []

/-- The last `n` elements of a list (JS `slice(-n)` / repeated `shift()`). -/
def lastN {α : Type} (n : Nat) (l : List α) : List α := l.drop (l.length - n)

theorem lastN_of_le {α : Type} {l : List α} {n : Nat} (h : l.length ≤ n) :
    lastN n l = l := by
  simp [lastN, Nat.sub_eq_zero_of_le h]

theorem lastN_length {α : Type} (n : Nat) (l : List α) :
    (lastN n l).length = l.length - (l.length - n) := by
  simp [lastN]

theorem lastN_succ_append {α : Type} (n : Nat) (l : List α) (x : α) :
    lastN (n + 1) (l ++ [x]) = lastN n l ++ [x] := by
  simp only [lastN, List.length_append, List.length_cons, List.length_nil]
  have h : l.length + (0 + 1) - (n + 1) = l.length - n := by omega
  rw [h, List.drop_append_of_le_length (by omega)]

theorem lastN_tail {α : Type} {l : List α} {n : Nat} (h : n + 1 ≤ l.length) :
    (lastN (n + 1) l).tail = lastN n l := by
  simp only [lastN, List.tail_drop]
  congr 1
  omega

theorem lastN_ne_nil {α : Type} {l : List α} (h : l ≠ []) (n : Nat) :
    lastN (n + 1) l ≠ [] := by
  intro hnil
  have h1 := lastN_length (n + 1) l
  rw [hnil] at h1
  have h2 : 0 < l.length := List.length_pos.mpr h
  simp at h1
  omega

theorem tail_append_of_ne_nil {α : Type} {l : List α} (h : l ≠ []) (t : List α) :
    (l ++ t).tail = l.tail ++ t := by
  cases l with
  | nil => exact absurd rfl h
  | cons a l' => simp

theorem getLast?_lastN_succ {α : Type} {l : List α} (h : l ≠ []) (n : Nat) :
    (lastN (n + 1) l).getLast? = l.getLast? := by
  conv_rhs => rw [← List.take_append_drop (l.length - (n + 1)) l]
  exact (List.getLast?_append_of_ne_nil _ (lastN_ne_nil h n)).symm

theorem priceChanges_length : ∀ l : List ℚ, (priceChanges l).length = l.length - 1
  | [] => rfl
  | [_] => rfl
  | a :: b :: rest => by
    simp only [priceChanges, List.length_cons]
    rw [priceChanges_length (b :: rest)]
    simp

theorem priceChanges_concat :
    ∀ (l : List ℚ), l ≠ [] → ∀ x : ℚ,
      priceChanges (l ++ [x]) = priceChanges l ++ [x - (l.getLast?.getD 0)] := by
  intro l
  induction l with
  | nil => intro h; exact absurd rfl h
  | cons a t ih =>
    intro _ x
    cases t with
    | nil => simp [priceChanges]
    | cons b t2 =>
      have hbt : b :: (t2 ++ [x]) = (b :: t2) ++ [x] := by simp
      have hstep : priceChanges (a :: b :: (t2 ++ [x]))
          = (b - a) :: priceChanges (b :: (t2 ++ [x])) := rfl
      calc priceChanges ((a :: b :: t2) ++ [x])
          = (b - a) :: priceChanges ((b :: t2) ++ [x]) := by
            rw [List.cons_append, List.cons_append, hstep, hbt]
        _ = (b - a) :: (priceChanges (b :: t2) ++ [x - ((b :: t2).getLast?.getD 0)]) := by
            rw [ih (by simp) x]
        _ = priceChanges (a :: b :: t2) ++ [x - ((a :: b :: t2).getLast?.getD 0)] := by
            rw [List.getLast?_cons_cons]
            rfl

/-- Running the RSI from scratch over a price series leaves exactly the last
`period + 1` prices and the gains/losses of the last `period` changes. -/
theorem rsiRun_invariant (p : Nat) (xs : List ℚ) :
    (rsiRun p xs).period = p ∧
    (rsiRun p xs).prices = lastN (p + 1) xs ∧
    (rsiRun p xs).gains =
      (lastN p (priceChanges xs)).map (fun c => if c > 0 then c else 0) ∧
    (rsiRun p xs).losses =
      (lastN p (priceChanges xs)).map (fun c => if c < 0 then |c| else 0) := by
  induction xs using List.reverseRecOn with
  | nil => simp [rsiRun, rsiInit, lastN, priceChanges]
  | append_singleton xs x ih =>
    obtain ⟨hper, hpr, hg, hl⟩ := ih
    have hrun : rsiRun p (xs ++ [x]) = rsiUpdate (rsiRun p xs) x := by
      simp [rsiRun, List.foldl_append]
    rw [hrun]
    by_cases hnil : xs = []
    · subst hnil
      have hempty : rsiRun p [] = rsiInit p := rfl
      rw [hempty]
      simp only [rsiUpdate, rsiInit, List.getLast?_nil, List.nil_append]
      rw [if_neg (by simp)]
      refine ⟨rfl, ?_, ?_, ?_⟩
      · rw [lastN_of_le (by simp)]
      · simp [priceChanges, lastN]
      · simp [priceChanges, lastN]
    · obtain ⟨prev, hprev⟩ : ∃ v, xs.getLast? = some v := by
        cases hx : xs.getLast? with
        | none => exact absurd (List.getLast?_eq_none_iff.mp hx) hnil
        | some v => exact ⟨v, rfl⟩
      have hprev' : (rsiRun p xs).prices.getLast? = some prev := by
        rw [hpr, getLast?_lastN_succ hnil, hprev]
      have hcs : priceChanges (xs ++ [x]) = priceChanges xs ++ [x - prev] := by
        rw [priceChanges_concat xs hnil x, hprev]
        rfl
      have hL : 1 ≤ xs.length := by
        cases xs with
        | nil => exact absurd rfl hnil
        | cons a t => simp
      have hprlen : (rsiRun p xs).prices.length = xs.length - (xs.length - (p + 1)) := by
        rw [hpr, lastN_length]
      have hglen : (rsiRun p xs).gains.length
          = (xs.length - 1) - ((xs.length - 1) - p) := by
        rw [hg, List.length_map, lastN_length, priceChanges_length]
      have hllen : (rsiRun p xs).losses.length
          = (xs.length - 1) - ((xs.length - 1) - p) := by
        rw [hl, List.length_map, lastN_length, priceChanges_length]
      rw [rsiUpdate, hprev']
      simp only [hper]
      by_cases hshift : p + 1 ≤ xs.length
      · rw [if_pos (by
          simp only [List.length_append, List.length_cons, List.length_nil]
          omega)]
        refine ⟨rfl, ?_, ?_, ?_⟩
        · have hne : (rsiRun p xs).prices ≠ [] := by
            rw [hpr]
            exact lastN_ne_nil hnil p
          rw [tail_append_of_ne_nil hne, hpr, lastN_tail (by omega),
            lastN_succ_append]
        · cases p with
          | zero =>
            have hz : lastN 0 (priceChanges xs) = [] := by
              simp [lastN, List.drop_length]
            have hz2 : lastN 0 (priceChanges (xs ++ [x])) = [] := by
              simp [lastN, List.drop_length]
            rw [hg, hz, hz2]
            simp
          | succ q =>
            have hne : lastN (q + 1) (priceChanges xs) ≠ [] := by
              apply lastN_ne_nil
              intro hc
              have := priceChanges_length xs
              rw [hc] at this
              simp at this
              omega
            have hmapne : (lastN (q + 1) (priceChanges xs)).map
                (fun c => if c > 0 then c else 0) ≠ [] := by
              simpa using hne
            rw [hg, tail_append_of_ne_nil hmapne, hcs, lastN_succ_append,
              List.map_append, ← List.map_tail,
              lastN_tail (by rw [priceChanges_length]; omega)]
            simp
        · cases p with
          | zero =>
            have hz : lastN 0 (priceChanges xs) = [] := by
              simp [lastN, List.drop_length]
            have hz2 : lastN 0 (priceChanges (xs ++ [x])) = [] := by
              simp [lastN, List.drop_length]
            rw [hl, hz, hz2]
            simp
          | succ q =>
            have hne : lastN (q + 1) (priceChanges xs) ≠ [] := by
              apply lastN_ne_nil
              intro hc
              have := priceChanges_length xs
              rw [hc] at this
              simp at this
              omega
            have hmapne : (lastN (q + 1) (priceChanges xs)).map
                (fun c => if c < 0 then |c| else 0) ≠ [] := by
              simpa using hne
            rw [hl, tail_append_of_ne_nil hmapne, hcs, lastN_succ_append,
              List.map_append, ← List.map_tail,
              lastN_tail (by rw [priceChanges_length]; omega)]
            simp
      · rw [if_neg (by
          simp only [List.length_append, List.length_cons, List.length_nil]
          omega)]
        refine ⟨rfl, ?_, ?_, ?_⟩
        · rw [hpr, lastN_of_le (by omega), lastN_of_le (by simp; omega)]
        · rw [hg, hcs, lastN_of_le (by rw [priceChanges_length]; omega),
            lastN_of_le (by simp [priceChanges_length]; omega),
            List.map_append]
          simp
        · rw [hl, hcs, lastN_of_le (by rw [priceChanges_length]; omega),
            lastN_of_le (by simp [priceChanges_length]; omega),
            List.map_append]
          simp

/-- C9: `RSI.getValue` returns 50 until at least `period` price changes have
been observed; after that it returns 100 when the average loss over the last
`period` changes is 0, and otherwise `100 - 100/(1 + avgGain/avgLoss)`,
where `avgGain`/`avgLoss` are the sums of the last `period` gains/losses
divided by `period` — the textbook RSI over the retained change window. -/
theorem rsi_getValue_formula (period : Nat) (xs : List ℚ) (hp : 1 ≤ period) :
    (xs.length ≤ period → rsiGetValue (rsiRun period xs) = 50) ∧
    (period + 1 ≤ xs.length →
      rsiGetValue (rsiRun period xs) =
        (if ((lastN period (priceChanges xs)).map
                (fun c => if c < 0 then |c| else 0)).sum / (period : ℚ) = 0
         then 100
         else 100 - 100 / (1 +
           (((lastN period (priceChanges xs)).map
               (fun c => if c > 0 then c else 0)).sum / (period : ℚ)) /
           (((lastN period (priceChanges xs)).map
               (fun c => if c < 0 then |c| else 0)).sum / (period : ℚ))))) := by
  obtain ⟨hper, hpr, hg, hl⟩ := rsiRun_invariant period xs
  have hglen : (rsiRun period xs).gains.length
      = (xs.length - 1) - ((xs.length - 1) - period) := by
    rw [hg, List.length_map, lastN_length, priceChanges_length]
  constructor
  · intro hshort
    rw [rsiGetValue, if_pos (by rw [hglen, hper]; omega)]
  · intro hlong
    rw [rsiGetValue, if_neg (by rw [hglen, hper]; omega)]
    rw [hper, hg, hl]

/-- Witness for `rsi_getValue_formula`: over prices `[1, 2, 4, 3]` with
period 2, the retained changes are `[2, -1]`, so `avgGain = 1`,
`avgLoss = 1/2`, and the RSI is `100 - 100/3 = 200/3`. -/
theorem rsi_getValue_formula_witness :
    rsiGetValue (rsiRun 2 [1, 2, 4, 3]) = 200 / 3 :=
  ((rsi_getValue_formula 2 [1, 2, 4, 3] (by decide)).2 (by decide)).trans
    (by norm_num [lastN, priceChanges])

/-! ## UnifiedTradingManager.updatePortfolioFromFill
(src/unnamed/part_009, lines 1591-1670)

JS numbers are modelled as rationals.  Only the existing-position branch is
claimed about; its arithmetic on the `Position` record is embedded below. -/

/-- The write applied to an existing position: either the close update
(`quantity: 0`, `realizedPnL`) or the running update
(`quantity`, `avgPrice`, `marketValue`, `costBasis`). -/
inductive PositionUpdate where
  | closed (quantity realizedPnL : ℚ)
  | updated (quantity avgPrice marketValue costBasis : ℚ)
deriving DecidableEq

/-- The existing-position branch of `updatePortfolioFromFill`: `newQty` adds
the fill for a BUY and subtracts it otherwise; `newQty <= 0` closes the
position with `realizedPnL = (fillPrice - avgPrice) * fillQty`; otherwise a
BUY re-averages the entry price and a SELL keeps it. -/
def applyFillToPosition (side : String) (posQty posAvg fillQty fillPrice : ℚ) :
    PositionUpdate :=
  let newQty := if side = "BUY" then posQty + fillQty else posQty - fillQty
  if newQty ≤ 0 then
    .closed 0 ((fillPrice - posAvg) * fillQty)
  else
    let newAvgPrice := if side = "BUY"
      then (posQty * posAvg + fillQty * fillPrice) / newQty
      else posAvg
    .updated newQty newAvgPrice (newQty * fillPrice) (newQty * newAvgPrice)

/-- C7: on an existing open position, a BUY fill sets quantity to
`oldQty + fillQty` and the average price to the quantity-weighted average;
a SELL fill keeps the average price and sets quantity to `oldQty - fillQty`;
and whenever the resulting quantity is `<= 0` the position is closed with
quantity 0 and `realizedPnL = (fillPrice - oldAvg) * fillQty`. -/
theorem updatePortfolioFromFill_position_arithmetic
    (posQty posAvg fillQty fillPrice : ℚ) :
    (0 < posQty + fillQty →
      applyFillToPosition "BUY" posQty posAvg fillQty fillPrice =
        .updated (posQty + fillQty)
          ((posQty * posAvg + fillQty * fillPrice) / (posQty + fillQty))
          ((posQty + fillQty) * fillPrice)
          ((posQty + fillQty) *
            ((posQty * posAvg + fillQty * fillPrice) / (posQty + fillQty)))) ∧
    (0 < posQty - fillQty →
      applyFillToPosition "SELL" posQty posAvg fillQty fillPrice =
        .updated (posQty - fillQty) posAvg ((posQty - fillQty) * fillPrice)
          ((posQty - fillQty) * posAvg)) ∧
    (∀ side, (if side = "BUY" then posQty + fillQty else posQty - fillQty) ≤ 0 →
      applyFillToPosition side posQty posAvg fillQty fillPrice =
        .closed 0 ((fillPrice - posAvg) * fillQty)) := by
  refine ⟨?_, ?_, ?_⟩
  · intro h
    simp [applyFillToPosition, not_le.mpr h]
  · intro h
    simp [applyFillToPosition, not_le.mpr h]
  · intro side h
    by_cases hside : side = "BUY"
    · subst hside
      simp at h
      simp [applyFillToPosition, h]
    · rw [if_neg hside] at h
      simp [applyFillToPosition, hside, h]

/-- Witness for `updatePortfolioFromFill_position_arithmetic`: a BUY of 3 at
20 onto a position of 2 at 10 yields quantity 5 at average price 16. -/
theorem updatePortfolioFromFill_position_arithmetic_witness :
    applyFillToPosition "BUY" 2 10 3 20 = .updated 5 16 100 80 := by
  rw [(updatePortfolioFromFill_position_arithmetic 2 10 3 20).1 (by norm_num)]
  norm_num

/-! ## BinanceAPI (src/lib/trading-apis/binance-api.js)

Order payloads: a missing `symbol` is the empty string (it fails the regex
either way); a missing or `NaN` numeric field is `none`.  Network requests
are oracles: `none`/`Except.error` model a thrown fetch error or a non-ok
response.  `toFixed` string formatting of the mock numbers is elided — the
numeric values are kept as rationals. -/

/-- The fields of `orderData` that `validateOrderData`/`placeOrder` read. -/
structure OrderData where
  symbol : String
  side : String
  type : String
  quantity : Option ℚ
  price : Option ℚ
deriving DecidableEq

/-- The regex test `/^[A-Z0-9]{2,12}$/.test(symbol)`. -/
def symbolMatches (s : String) : Bool :=
  2 ≤ s.length && s.length ≤ 12 &&
    s.data.all (fun c => ('A' ≤ c && c ≤ 'Z') || ('0' ≤ c && c ≤ '9'))

/-- `BinanceAPI.validateOrderData(orderData)`: the accumulated `errors`
array; the result's `isValid` is its emptiness.  A quantity of 0 is falsy in
JS, hence `!orderData.quantity || ... || quantity <= 0` is modelled by
`q ≤ 0`; `NaN > 1000000` is false, so an absent quantity never triggers the
size error. -/
def validateOrderData (o : OrderData) : List String :=
  (if symbolMatches o.symbol then [] else ["Invalid symbol format"]) ++
  (match o.quantity with
    | none => ["Invalid quantity"]
    | some q => if q ≤ 0 then ["Invalid quantity"] else []) ++
  (match o.quantity with
    | none => []
    | some q => if q > 1000000 then ["Quantity too large"] else []) ++
  (if o.type = "limit" then
    match o.price with
    | none => ["Invalid price for limit order"]
    | some p => if p ≤ 0 then ["Invalid price for limit order"] else []
   else [])

/-- The `fills[0]` entry of the demo order response.  `qty` and `commission`
copy `orderData.quantity` (so they are `none` exactly when it is). -/
structure DemoFill where
  price : ℚ
  qty : Option ℚ
  commission : Option ℚ
  commissionAsset : String
deriving DecidableEq

/-- The simulated order response of `placeOrder` in demo mode. -/
structure DemoOrderResponse where
  orderId : String
  symbol : String
  side : String
  type : String
  quantity : Option ℚ
  price : Option ℚ
  status : String
  transactTime : Nat
  fill : DemoFill
deriving DecidableEq

/-- Result of `placeOrder`: a thrown `Error`, the demo response (returned
before any live request is attempted), or the forwarded live response. -/
inductive PlaceOrderResult where
  | err (msg : String)
  | demoFill (resp : DemoOrderResponse)
  | live (resp : String)
deriving DecidableEq

/-- `BinanceAPI.placeOrder(orderData)` at clock `now`.  `randPrice` models
`45000 + Math.random() * 10000`; `liveResult` is the outcome of
`makeSignedRequest('/v3/order', 'POST', params)` taken in live mode (its
parameter marshalling performs no further checks and is not claimed about,
so the oracle stands for the whole signed request). -/
def placeOrder (isDemo : Bool) (now : Nat) (randPrice : ℚ)
    (liveResult : Except String String) (o : OrderData) : PlaceOrderResult :=
  let errors := validateOrderData o
  if ¬ errors.isEmpty then
    .err ("Invalid order data: " ++ String.intercalate ", " errors)
  else if isDemo then
    .demoFill
      { orderId := "demo_" ++ Nat.repr now
        symbol := o.symbol
        side := o.side
        type := o.type
        quantity := o.quantity
        price := o.price
        status := "FILLED"
        transactTime := now
        fill :=
          { price := match o.price with
              | some p => if p = 0 then randPrice else p
              | none => randPrice
            qty := o.quantity
            commission := o.quantity.map (fun q => q * (1 / 1000))
            commissionAsset := if o.symbol.endsWith "USDT" then "USDT" else "BNB" } }
  else
    match liveResult with
    | .ok r => .live r
    | .error m => .err ("Order failed: " ++ m)

/-- C5: `placeOrder` throws for every `orderData` failing validation —
equivalently (third conjunct) whenever the symbol fails
`/^[A-Z0-9]{2,12}$/`, the quantity is missing/non-positive/over 1,000,000,
or a limit order lacks a positive price — in demo and live mode alike; and
for every validated order, demo mode returns a simulated response with
status `FILLED` and an orderId beginning with `demo_`, identically for
every live-request oracle (no live broker call is consulted). -/
theorem placeOrder_validation_and_demo (isDemo : Bool) (now : Nat) (randPrice : ℚ)
    (liveResult : Except String String) (o : OrderData) :
    (validateOrderData o ≠ [] →
      placeOrder isDemo now randPrice liveResult o =
        .err ("Invalid order data: " ++ String.intercalate ", " (validateOrderData o))) ∧
    (validateOrderData o = [] → isDemo = true →
      ∃ resp, placeOrder isDemo now randPrice liveResult o = .demoFill resp ∧
        resp.status = "FILLED" ∧
        (∃ s, resp.orderId = "demo_" ++ s) ∧
        (∀ liveResult2, placeOrder isDemo now randPrice liveResult2 o =
          placeOrder isDemo now randPrice liveResult o)) ∧
    (validateOrderData o = [] ↔
      (symbolMatches o.symbol = true ∧
       (∃ q, o.quantity = some q ∧ 0 < q ∧ q ≤ 1000000) ∧
       (o.type = "limit" → ∃ p, o.price = some p ∧ 0 < p))) := by
  refine ⟨?_, ?_, ?_⟩
  · intro hval
    simp only [placeOrder]
    rw [if_pos (by simpa [List.isEmpty_iff] using hval)]
  · intro hval hdemo
    subst hdemo
    have heq : ∀ lr : Except String String, placeOrder true now randPrice lr o =
        .demoFill
          { orderId := "demo_" ++ Nat.repr now
            symbol := o.symbol
            side := o.side
            type := o.type
            quantity := o.quantity
            price := o.price
            status := "FILLED"
            transactTime := now
            fill :=
              { price := match o.price with
                  | some p => if p = 0 then randPrice else p
                  | none => randPrice
                qty := o.quantity
                commission := o.quantity.map (fun q => q * (1 / 1000))
                commissionAsset := if o.symbol.endsWith "USDT" then "USDT"
                  else "BNB" } } := by
      intro lr
      simp only [placeOrder]
      rw [if_neg (by simp [hval])]
      simp
    exact ⟨_, heq liveResult, rfl, ⟨Nat.repr now, rfl⟩,
      fun lr2 => (heq lr2).trans (heq liveResult).symm⟩
  · rw [validateOrderData]
    constructor
    · intro h
      simp only [List.append_eq_nil] at h
      obtain ⟨⟨⟨h1, h2⟩, h3⟩, h4⟩ := h
      refine ⟨?_, ?_, ?_⟩
      · by_cases hs : symbolMatches o.symbol
        · exact hs
        · rw [if_neg hs] at h1; exact absurd h1 (by simp)
      · cases hq : o.quantity with
        | none => rw [hq] at h2; exact absurd h2 (by simp)
        | some q =>
          rw [hq] at h2 h3
          simp only [ite_eq_right_iff] at h2 h3
          refine ⟨q, rfl, ?_, ?_⟩
          · by_cases hq0 : q ≤ 0
            · exact absurd (h2 hq0) (by simp)
            · linarith
          · by_cases hqM : q > 1000000
            · exact absurd (h3 hqM) (by simp)
            · linarith
      · intro hlimit
        rw [if_pos hlimit] at h4
        cases hp : o.price with
        | none => rw [hp] at h4; exact absurd h4 (by simp)
        | some p =>
          rw [hp] at h4
          simp only [ite_eq_right_iff] at h4
          refine ⟨p, rfl, ?_⟩
          by_cases hp0 : p ≤ 0
          · exact absurd (h4 hp0) (by simp)
          · linarith
    · rintro ⟨hs, ⟨q, hq, hq0, hqM⟩, hp⟩
      by_cases hlimit : o.type = "limit"
      · obtain ⟨p, hpeq, hp0⟩ := hp hlimit
        simp [hs, hq, hpeq, hlimit, not_le.mpr hq0, not_lt.mpr hqM, not_le.mpr hp0]
      · simp [hs, hq, hlimit, not_le.mpr hq0, not_lt.mpr hqM]

/-- Witness for `placeOrder_validation_and_demo`: a validated market BUY of
1 BTCUSDT in demo mode at time 42 yields the simulated `FILLED` response. -/
theorem placeOrder_validation_and_demo_witness :
    ∃ resp, placeOrder true 42 50000 (.error "network down")
        (OrderData.mk "BTCUSDT" "BUY" "market" (some 1) none) = .demoFill resp ∧
      resp.status = "FILLED" ∧
      (∃ s, resp.orderId = "demo_" ++ s) ∧
      (∀ liveResult2, placeOrder true 42 50000 liveResult2
          (OrderData.mk "BTCUSDT" "BUY" "market" (some 1) none) =
        placeOrder true 42 50000 (.error "network down")
          (OrderData.mk "BTCUSDT" "BUY" "market" (some 1) none)) :=
  (placeOrder_validation_and_demo true 42 50000 (.error "network down")
      (OrderData.mk "BTCUSDT" "BUY" "market" (some 1) none)).2.1
    (by decide) rfl

/-! ## BinanceAPI read operations and their fallbacks
(src/lib/trading-apis/binance-api.js, lines 108-144 and 201-226)

`makeRequest`/`makeSignedRequest` outcomes are oracles (`none` = the request
threw: fetch failure or a non-ok response). -/

/-- One entry of the hard-coded demo exchange info. -/
structure SymbolInfo where
  symbol : String
  status : String
  baseAsset : String
  quoteAsset : String
deriving DecidableEq

/-- The demo symbols of `getExchangeInfo`'s catch branch. -/
def demoExchangeSymbols : List SymbolInfo :=
  [SymbolInfo.mk "BTCUSDT" "TRADING" "BTC" "USDT",
   SymbolInfo.mk "ETHUSDT" "TRADING" "ETH" "USDT",
   SymbolInfo.mk "ADAUSDT" "TRADING" "ADA" "USDT"]

/-- What `getExchangeInfo` returns: the live response or the demo list. -/
inductive ExchangeInfoResult where
  | live (resp : String)
  | demo (symbols : List SymbolInfo)
deriving DecidableEq

/-- `BinanceAPI.getExchangeInfo()`; a thrown `makeRequest` is caught and the
demo symbol list returned. -/
def getExchangeInfo (http : Option String) : ExchangeInfoResult :=
  match http with
  | some r => .live r
  | none => .demo demoExchangeSymbols

/-- The mock ticker of `getTicker24hr`'s catch branch; `r1 r2 r3 r4` model
the four `Math.random()` draws. -/
structure MockTicker where
  symbol : String
  price : ℚ
  priceChangePercent : ℚ
  volume : ℚ
  lastPrice : ℚ
deriving DecidableEq

def mockTicker (symbol : Option String) (r1 r2 r3 r4 : ℚ) : MockTicker :=
  MockTicker.mk (symbol.getD "BTCUSDT") (45000 + r1 * 10000) (r2 * 10 - 5)
    (r3 * 1000000) (45000 + r4 * 10000)

/-- What `getTicker24hr` returns: the live response, or on failure a mock
ticker — a single object when a symbol was passed, a one-element array
otherwise. -/
inductive TickerResult where
  | live (resp : String)
  | demoSingle (t : MockTicker)
  | demoList (ts : List MockTicker)
deriving DecidableEq

/-- `BinanceAPI.getTicker24hr(symbol)`. -/
def getTicker24hr (symbol : Option String) (http : Option String)
    (r1 r2 r3 r4 : ℚ) : TickerResult :=
  match http with
  | some r => .live r
  | none =>
    match symbol with
    | some _ => .demoSingle (mockTicker symbol r1 r2 r3 r4)
    | none => .demoList [mockTicker symbol r1 r2 r3 r4]

/-- One balance entry of the hard-coded demo account info. -/
structure DemoBalance where
  asset : String
  free : ℚ
  locked : ℚ
deriving DecidableEq

/-- The account payload; the demo constants keep their numeric values. -/
structure AccountInfo where
  balances : List DemoBalance
  totalWalletBalance : ℚ
  totalUnrealizedProfit : ℚ
  totalMarginBalance : ℚ
deriving DecidableEq

/-- The hard-coded demo account of `getAccountInfo`'s demo branch. -/
def demoAccountInfo : AccountInfo :=
  AccountInfo.mk
    [DemoBalance.mk "USDT" 10000 500, DemoBalance.mk "BTC" (1 / 2) 0,
     DemoBalance.mk "ETH" 5 0, DemoBalance.mk "ADA" 1000 0]
    15000 (501 / 2) (30501 / 2)

/-- What a completed `getAccountInfo` call returns. -/
inductive AccountInfoResult where
  | demo (a : AccountInfo)
  | live (resp : String)
deriving DecidableEq

/-- `BinanceAPI.getAccountInfo()`: demo mode returns the hard-coded account;
live mode makes a signed request and, when it throws, executes
`return this.getAccountInfo()` — re-entering the live path, since `isDemo`
is unchanged (despite the `// Fallback to demo` comment).  `http k` is the
outcome of the `k`-th signed request; `fuel` bounds the number of
re-invocations, with `none` meaning the call has not returned within the
budget. -/
def getAccountInfoFuel (http : Nat → Option String) (isDemo : Bool) :
    Nat → Nat → Option AccountInfoResult
  | 0, _ => none
  | fuel + 1, k =>
    if isDemo then some (.demo demoAccountInfo)
    else
      match http k with
      | some r => some (.live r)
      | none => getAccountInfoFuel http isDemo fuel (k + 1)

/-- C3 (code-bug exhibit): `getExchangeInfo` and `getTicker24hr` do return
the demo/mock data when the HTTP request fails, but `getAccountInfo` does
not: in live mode with every signed request failing, the catch branch
re-invokes the live path with `isDemo` still false, so for every recursion
budget the call never produces a value — it neither returns demo data nor
terminates, contradicting the claimed fallback and the source's own
`// Fallback to demo` comment.  (In demo mode it does return the demo
account immediately, first conjunct of the last line.) -/
theorem getAccountInfo_live_failure_never_returns :
    (∀ r1 r2 r3 r4 : ℚ,
      getExchangeInfo none = .demo demoExchangeSymbols ∧
      getTicker24hr (some "BTCUSDT") none r1 r2 r3 r4
        = .demoSingle (mockTicker (some "BTCUSDT") r1 r2 r3 r4) ∧
      getTicker24hr none none r1 r2 r3 r4
        = .demoList [mockTicker none r1 r2 r3 r4]) ∧
    (∀ fuel k, getAccountInfoFuel (fun _ => none) true (fuel + 1) k
        = some (.demo demoAccountInfo)) ∧
    (∀ fuel k, getAccountInfoFuel (fun _ => none) false fuel k = none) := by
  refine ⟨fun r1 r2 r3 r4 => ⟨rfl, rfl, rfl⟩, fun fuel k => rfl, ?_⟩
  intro fuel
  induction fuel with
  | zero => intro k; rfl
  | succ f ih =>
    intro k
    simpa [getAccountInfoFuel] using ih (k + 1)

/-! ## UnifiedTradingManager.placeOrder (src/unnamed/part_009, lines 1512-1585)

Only the database-visible behaviour is embedded: the order table rows a call
creates and the error it throws.  Prisma lookups become list lookups. -/

/-- A `TradingAccount` row (the fields `placeOrder` reads). -/
structure TradingAccount where
  id : Nat
  userId : Nat
  platform : String
deriving DecidableEq

/-- An `Order` row (the claim-relevant fields). -/
structure OrderRec where
  userId : Nat
  tradingAccountId : Nat
  symbol : String
  status : String
deriving DecidableEq

/-- The database state `placeOrder` touches. -/
structure Db where
  accounts : List TradingAccount
  orders : List OrderRec
deriving DecidableEq

/-- `prisma.tradingAccount.findUnique({ where: { id: accountId } })`. -/
def findAccount (db : Db) (accountId : Nat) : Option TradingAccount :=
  db.accounts.find? (fun a => a.id == accountId)

/-- The status/orderId of the exchange response used to update the order. -/
structure ExchangeResult where
  status : String
  orderId : String
deriving DecidableEq

/-- `connectAccount(accountId)`: throws when the account row is absent;
returns a cached connection when present (`connections` maps account ids to
whether the cached api object is non-null — `connectBybit` returns `null`,
which is cached too); else connects by platform: Binance always yields an
api object (it falls back to a demo api when the connection test fails),
Bybit's stub yields `null`, other platforms throw.  The `Bool` is whether a
non-null api was obtained. -/
def connectAccount (db : Db) (connections : List (Nat × Bool)) (accountId : Nat) :
    Except String Bool :=
  match findAccount db accountId with
  | none => .error "Account not found"
  | some account =>
    match connections.find? (fun c => c.1 == accountId) with
    | some c => .ok c.2
    | none =>
      if account.platform = "BINANCE" then .ok true
      else if account.platform = "BYBIT" then .ok false
      else .error ("Platform " ++ account.platform ++ " not supported yet")

/-- `UnifiedTradingManager.placeOrder(userId, accountId, orderData)`, as a
transition on the order table plus the thrown/returned result.
`exchangeResult` is the broker submission outcome.  The source order of
operations: connect, re-fetch the account, reject with `'Unauthorized
account access'` when `account.userId !== userId`, only then
`prisma.order.create`; a broker failure marks the created order `REJECTED`
and rethrows. -/
def managerPlaceOrder (db : Db) (connections : List (Nat × Bool))
    (userId accountId : Nat) (symbol : String)
    (exchangeResult : Except String ExchangeResult) :
    Db × Except String OrderRec :=
  match connectAccount db connections accountId with
  | .error e => (db, .error e)
  | .ok api =>
    if !api then (db, .error "Failed to connect to trading platform")
    else
      match findAccount db accountId with
      | none => (db, .error "TypeError: account is null")
      | some account =>
        if account.userId ≠ userId then (db, .error "Unauthorized account access")
        else
          match exchangeResult with
          | .ok result =>
            let updated : OrderRec :=
              ⟨userId, accountId, symbol,
               if result.status = "" then "SUBMITTED" else result.status⟩
            ({ db with orders := db.orders ++ [updated] }, .ok updated)
          | .error m =>
            ({ db with orders := db.orders ++ [⟨userId, accountId, symbol, "REJECTED"⟩] },
             .error m)

/-- An order row references a trading account of the same user. -/
def orderAuthorized (db : Db) (o : OrderRec) : Prop :=
  ∃ a ∈ db.accounts, a.id = o.tradingAccountId ∧ a.userId = o.userId

/-- C6: when the account identified by `accountId` belongs to a different
user, `placeOrder` leaves the order table unchanged and throws — with
message `'Unauthorized account access'` whenever the connection step
succeeded — and the referential invariant is preserved: if every existing
order references a `TradingAccount` of its own user, so does every order
after any `placeOrder` call. -/
theorem managerPlaceOrder_authorization (db : Db) (connections : List (Nat × Bool))
    (userId accountId : Nat) (symbol : String)
    (exchangeResult : Except String ExchangeResult) :
    (∀ account, findAccount db accountId = some account → account.userId ≠ userId →
      connectAccount db connections accountId = .ok true →
      managerPlaceOrder db connections userId accountId symbol exchangeResult
        = (db, .error "Unauthorized account access")) ∧
    (∀ account, findAccount db accountId = some account → account.userId ≠ userId →
      (managerPlaceOrder db connections userId accountId symbol exchangeResult).1 = db ∧
      ∃ e, (managerPlaceOrder db connections userId accountId symbol exchangeResult).2
        = .error e) ∧
    ((∀ o ∈ db.orders, orderAuthorized db o) →
      ∀ o ∈ (managerPlaceOrder db connections userId accountId symbol
              exchangeResult).1.orders,
        orderAuthorized
          (managerPlaceOrder db connections userId accountId symbol exchangeResult).1
          o) := by
  refine ⟨?_, ?_, ?_⟩
  · intro account hfind hne hconn
    rw [managerPlaceOrder.eq_def, hconn]
    simp only [Bool.not_true, Bool.false_eq_true, if_false, hfind]
    rw [if_pos hne]
  · intro account hfind hne
    rw [managerPlaceOrder.eq_def]
    cases hconn : connectAccount db connections accountId with
    | error e => exact ⟨rfl, e, rfl⟩
    | ok api =>
      cases api with
      | false => exact ⟨rfl, "Failed to connect to trading platform", rfl⟩
      | true =>
        simp only [Bool.not_true, Bool.false_eq_true, if_false, hfind]
        rw [if_pos hne]
        exact ⟨rfl, "Unauthorized account access", rfl⟩
  · intro hinv o
    rw [managerPlaceOrder.eq_def]
    cases hconn : connectAccount db connections accountId with
    | error e => exact fun ho => hinv o ho
    | ok api =>
      cases api with
      | false => exact fun ho => hinv o ho
      | true =>
        simp only [Bool.not_true, Bool.false_eq_true, if_false]
        cases hfind : findAccount db accountId with
        | none => exact fun ho => hinv o ho
        | some account =>
          dsimp only
          by_cases hne : account.userId ≠ userId
          · rw [if_pos hne]
            exact fun ho => hinv o ho
          · rw [if_neg hne]
            push_neg at hne
            have hmem : account ∈ db.accounts := List.mem_of_find?_eq_some hfind
            have hid : account.id = accountId := by
              have := List.find?_some hfind
              simpa using this
            cases exchangeResult with
            | ok result =>
              simp only [List.mem_append, List.mem_singleton]
              rintro (ho | rfl)
              · exact hinv o ho
              · exact ⟨account, hmem, hid, hne⟩
            | error m =>
              simp only [List.mem_append, List.mem_singleton]
              rintro (ho | rfl)
              · exact hinv o ho
              · exact ⟨account, hmem, hid, hne⟩

/-- Witness for `managerPlaceOrder_authorization`: user 9 ordering on
account 1 (owned by user 7) is rejected with the unauthorized error and no
order row is created. -/
theorem managerPlaceOrder_authorization_witness :
    managerPlaceOrder
        (Db.mk [TradingAccount.mk 1 7 "BINANCE"] []) [] 9 1 "BTCUSDT"
        (.ok (ExchangeResult.mk "FILLED" "x1"))
      = (Db.mk [TradingAccount.mk 1 7 "BINANCE"] [],
         .error "Unauthorized account access") :=
  (managerPlaceOrder_authorization
      (Db.mk [TradingAccount.mk 1 7 "BINANCE"] []) [] 9 1 "BTCUSDT"
      (.ok (ExchangeResult.mk "FILLED" "x1"))).1
    (TradingAccount.mk 1 7 "BINANCE") rfl (by decide) rfl

/-! ## RateLimiter (src/lib/security/csrf-protection.js, lines 323-654)

Timestamps and the window are JS numbers used as millisecond clocks,
modelled as `Int`.  The `requests` and `blockedUntil` maps are total
functions from string keys; keys are built exactly as the source
concatenates them (`userId:limitType`, `userId:violations`,
`userId:exchange:orders`, `userId:global`). -/

/-- The per-minute limits table of the constructor (defaults
`10/30/60/5/100`). -/
structure Limits where
  trading : Nat
  account : Nat
  market : Nat
  websocket : Nat
  global : Nat
deriving DecidableEq

/-- `this.limits[limitType]` for the five keys `getLimitType` can produce. -/
def Limits.get (l : Limits) (limitType : JSStr) : Nat :=
  if limitType = "trading".data then l.trading
  else if limitType = "account".data then l.account
  else if limitType = "market".data then l.market
  else if limitType = "websocket".data then l.websocket
  else l.global

/-- `String.prototype.includes(needle)` (substring containment). -/
def strContainsSub (needle : JSStr) : JSStr → Bool
  | [] => needle.isEmpty
  | c :: rest => needle.isPrefixOf (c :: rest) || strContainsSub needle rest

def jsIncludes (hay needle : JSStr) : Bool := strContainsSub needle hay

/-- `RateLimiter.getLimitType(endpoint)`. -/
def getLimitType (endpoint : JSStr) : JSStr :=
  if jsIncludes endpoint "order".data || jsIncludes endpoint "trade".data then
    "trading".data
  else if jsIncludes endpoint "account".data || jsIncludes endpoint "balance".data then
    "account".data
  else if jsIncludes endpoint "ticker".data || jsIncludes endpoint "market".data
      || jsIncludes endpoint "kline".data then
    "market".data
  else if jsIncludes endpoint "ws".data || jsIncludes endpoint "websocket".data then
    "websocket".data
  else
    "global".data

/-- The mutable state of a `RateLimiter`.  The exchange limits table is
hard-coded in the constructor; `checkExchangeLimit` consults only its
`orders` entries, embedded as `exchangeOrdersLimit` below. -/
structure RLState where
  limits : Limits
  windowMs : Int
  requests : JSStr → List Int
  blockedUntil : JSStr → Option Int

/-- `Map.set` on a function-modelled map. -/
def updMap {α : Type} (m : JSStr → α) (k : JSStr) (v : α) : JSStr → α :=
  fun k2 => if k2 = k then v else m k2

/-- `isBlocked(userId, now)`: `blockUntil && now < blockUntil` (a stored 0
is falsy and counts as not blocked). -/
def isBlocked (st : RLState) (userId : JSStr) (now : Int) : Bool :=
  match st.blockedUntil userId with
  | some b => !(b == 0) && decide (now < b)
  | none => false

/-- `getRetryAfter(userId, now)`. -/
def getRetryAfter (st : RLState) (userId : JSStr) (now : Int) : Int :=
  match st.blockedUntil userId with
  | some b => b - now
  | none => 0

/-- `addViolation(userId, limitType)`: drop violations older than 5 minutes,
record the new one, and install the progressive block: 5 or more recent
violations block for 5 minutes, 3 or more for 1 minute.  (The `limitType`
argument is only logged.) -/
def addViolation (st : RLState) (userId : JSStr) (now : Int) : RLState :=
  let violationKey := userId ++ ':' :: "violations".data
  let recent := (st.requests violationKey).filter (fun t => now - t < 300000) ++ [now]
  let st1 : RLState := { st with requests := updMap st.requests violationKey recent }
  if 5 ≤ recent.length then
    { st1 with blockedUntil := updMap st1.blockedUntil userId (some (now + 300000)) }
  else if 3 ≤ recent.length then
    { st1 with blockedUntil := updMap st1.blockedUntil userId (some (now + 60000)) }
  else st1

/-- The `orders` column of the hard-coded `exchangeLimits` table. -/
def exchangeOrdersLimit (e : JSStr) : Option Nat :=
  if e = "binance".data then some 10
  else if e = "bybit".data then some 20
  else if e = "tradovate".data then some 500
  else none

/-- `checkExchangeLimit(userId, exchange, endpoint, now)`: unknown exchanges
pass; for order/trade endpoints the user's orders in the last second are
counted against the per-second cap, and on success the order is recorded,
keeping the last `limit` entries (`slice(-limit)`).  Returns the rejection
(reason, retryAfter) if any, with the updated state. -/
def checkExchangeLimit (st : RLState) (userId exchange endpoint : JSStr)
    (now : Int) : Option (String × Int) × RLState :=
  match exchangeOrdersLimit exchange with
  | none => (none, st)
  | some limit =>
    if jsIncludes endpoint "order".data || jsIncludes endpoint "trade".data then
      let orderKey := userId ++ ':' :: (exchange ++ ':' :: "orders".data)
      let recentOrders := st.requests orderKey
      if limit ≤ (recentOrders.filter (fun t => now - t < 1000)).length then
        (some ("exchange_order_limit", 1000), st)
      else
        let kept := lastN limit (recentOrders ++ [now])
        (none, { st with requests := updMap st.requests orderKey kept })
    else (none, st)

/-- `updateGlobalCount(userId, now)`: refresh the user's global window,
record the request, and register a violation at the global cap. -/
def updateGlobalCount (st : RLState) (userId : JSStr) (now : Int) : RLState :=
  let globalKey := userId ++ ':' :: "global".data
  let valid := (st.requests globalKey).filter (fun t => now - t < st.windowMs) ++ [now]
  let st1 : RLState := { st with requests := updMap st.requests globalKey valid }
  if st.limits.global ≤ valid.length then addViolation st1 userId now else st1

/-- The result object of `isAllowed`, by its `reason`:
`temporarily_blocked`, `rate_limit_exceeded`, the exchange rejection, or
`allowed: true` with `remaining`/`resetTime`. -/
inductive RLResult where
  | blocked (retryAfter : Int)
  | limited (limit : Nat) (current : Nat) (retryAfter : Int)
  | exchangeLimited (reason : String) (retryAfter : Int)
  | allowed (remaining : Int) (resetTime : Int)
deriving DecidableEq

/-- `RateLimiter.isAllowed(userId, endpoint, exchange)` at clock `now`: the
result and the updated state.  Source order: block check; windowed count
against the limit (a hit records a violation); exchange-specific check;
record the request; update the global counter. -/
def isAllowed (st : RLState) (userId endpoint exchange : JSStr) (now : Int) :
    RLResult × RLState :=
  if isBlocked st userId now then
    (.blocked (getRetryAfter st userId now), st)
  else
    let limitType := getLimitType endpoint
    let limit := st.limits.get limitType
    let key := userId ++ ':' :: limitType
    let validRequests := (st.requests key).filter (fun t => now - t < st.windowMs)
    if limit ≤ validRequests.length then
      (.limited limit validRequests.length
        (st.windowMs - (now - validRequests.headD 0)),
       addViolation st userId now)
    else
      match checkExchangeLimit st userId exchange endpoint now with
      | (some r, st1) => (.exchangeLimited r.1 r.2, st1)
      | (none, st1) =>
        let valid2 := validRequests ++ [now]
        let st2 : RLState := { st1 with requests := updMap st1.requests key valid2 }
        let st3 := updateGlobalCount st2 userId now
        (.allowed ((limit : Int) - valid2.length) (now + st.windowMs), st3)

theorem key_tail_inj {u a b : JSStr} (h : u ++ ':' :: a = u ++ ':' :: b) :
    a = b := by
  have := List.append_cancel_left h
  simpa using this

theorem getLimitType_cases (ep : JSStr) :
    getLimitType ep = "trading".data ∨ getLimitType ep = "account".data ∨
    getLimitType ep = "market".data ∨ getLimitType ep = "websocket".data ∨
    getLimitType ep = "global".data := by
  unfold getLimitType
  split_ifs <;> simp

theorem getLimitType_colon_free (ep : JSStr) : (':' : Char) ∉ getLimitType ep := by
  rcases getLimitType_cases ep with h | h | h | h | h <;> rw [h] <;> decide

theorem getLimitType_ne_violations (ep : JSStr) :
    getLimitType ep ≠ "violations".data := by
  rcases getLimitType_cases ep with h | h | h | h | h <;> rw [h] <;> decide

theorem addViolation_requests (st : RLState) (u : JSStr) (now : Int) :
    (addViolation st u now).requests =
      updMap st.requests (u ++ ':' :: "violations".data)
        ((st.requests (u ++ ':' :: "violations".data)).filter
          (fun t => now - t < 300000) ++ [now]) := by
  simp only [addViolation]
  split_ifs <;> rfl

theorem addViolation_blockedUntil (st : RLState) (u : JSStr) (now : Int) :
    (addViolation st u now).blockedUntil =
      (if 5 ≤ ((st.requests (u ++ ':' :: "violations".data)).filter
            (fun t => now - t < 300000) ++ [now]).length then
        updMap st.blockedUntil u (some (now + 300000))
       else if 3 ≤ ((st.requests (u ++ ':' :: "violations".data)).filter
            (fun t => now - t < 300000) ++ [now]).length then
        updMap st.blockedUntil u (some (now + 60000))
       else st.blockedUntil) := by
  simp only [addViolation]
  split_ifs <;> rfl

theorem checkExchangeLimit_state (st : RLState) (u ex ep : JSStr) (now : Int) :
    (checkExchangeLimit st u ex ep now).2.limits = st.limits ∧
    (checkExchangeLimit st u ex ep now).2.windowMs = st.windowMs ∧
    (checkExchangeLimit st u ex ep now).2.blockedUntil = st.blockedUntil ∧
    (∀ k, k ≠ u ++ ':' :: (ex ++ ':' :: "orders".data) →
      (checkExchangeLimit st u ex ep now).2.requests k = st.requests k) := by
  unfold checkExchangeLimit
  cases h : exchangeOrdersLimit ex with
  | none => exact ⟨rfl, rfl, rfl, fun k _ => rfl⟩
  | some limit =>
    dsimp only
    split_ifs with h1 h2
    · exact ⟨rfl, rfl, rfl, fun k _ => rfl⟩
    · exact ⟨rfl, rfl, rfl, fun k hk => by simp [updMap, hk]⟩
    · exact ⟨rfl, rfl, rfl, fun k _ => rfl⟩

theorem updateGlobalCount_requests_ne (st : RLState) (u : JSStr) (now : Int)
    (k : JSStr) (h1 : k ≠ u ++ ':' :: "global".data)
    (h2 : k ≠ u ++ ':' :: "violations".data) :
    (updateGlobalCount st u now).requests k = st.requests k := by
  simp only [updateGlobalCount]
  split_ifs
  · rw [addViolation_requests]
    simp [updMap, h1, h2]
  · simp [updMap, h1]

theorem updateGlobalCount_global (st : RLState) (u : JSStr) (now : Int) :
    (updateGlobalCount st u now).requests (u ++ ':' :: "global".data)
      = (st.requests (u ++ ':' :: "global".data)).filter
          (fun t => now - t < st.windowMs) ++ [now] := by
  have hne : (u ++ ':' :: "global".data) ≠ (u ++ ':' :: "violations".data) :=
    fun h => absurd (key_tail_inj h) (by decide)
  simp only [updateGlobalCount]
  split_ifs
  · rw [addViolation_requests]
    simp [updMap, hne]
  · simp [updMap]

/-- C1: when the user is not blocked, writing `count` for the number of the
user's recorded requests for the endpoint's limit type lying within the
last `windowMs` (older timestamps are filtered out and never count): if
`count` is at least the configured limit for that type, `isAllowed` returns
the `rate_limit_exceeded` rejection reporting that windowed count;
otherwise, when no exchange limit applies, it returns `allowed: true` and
records `now` under the user's key for that limit type — exactly appending
it for the four non-global limit types (the `global` type shares its key
with the global counter, which appends the timestamp once more). -/
theorem isAllowed_sliding_window (st : RLState) (userId endpoint exchange : JSStr)
    (now : Int) (hnb : isBlocked st userId now = false) :
    (st.limits.get (getLimitType endpoint) ≤
        ((st.requests (userId ++ ':' :: getLimitType endpoint)).filter
          (fun t => now - t < st.windowMs)).length →
      ∃ ra, (isAllowed st userId endpoint exchange now).1 =
        .limited (st.limits.get (getLimitType endpoint))
          ((st.requests (userId ++ ':' :: getLimitType endpoint)).filter
            (fun t => now - t < st.windowMs)).length ra) ∧
    (((st.requests (userId ++ ':' :: getLimitType endpoint)).filter
          (fun t => now - t < st.windowMs)).length <
        st.limits.get (getLimitType endpoint) →
      (checkExchangeLimit st userId exchange endpoint now).1 = none →
      (∃ rem rt, (isAllowed st userId endpoint exchange now).1 = .allowed rem rt) ∧
      now ∈ (isAllowed st userId endpoint exchange now).2.requests
          (userId ++ ':' :: getLimitType endpoint) ∧
      (getLimitType endpoint ≠ "global".data →
        (isAllowed st userId endpoint exchange now).2.requests
            (userId ++ ':' :: getLimitType endpoint) =
          (st.requests (userId ++ ':' :: getLimitType endpoint)).filter
            (fun t => now - t < st.windowMs) ++ [now])) := by
  unfold isAllowed
  rw [hnb]
  simp only [Bool.false_eq_true, if_false]
  constructor
  · intro hcount
    rw [if_pos hcount]
    exact ⟨_, rfl⟩
  · intro hcount hex
    rw [if_neg (not_le.mpr hcount)]
    rcases hce : checkExchangeLimit st userId exchange endpoint now with ⟨fst, st1⟩
    rw [hce] at hex
    simp only at hex
    subst hex
    dsimp only
    have hkey2 : (updMap st1.requests (userId ++ ':' :: getLimitType endpoint)
        ((st.requests (userId ++ ':' :: getLimitType endpoint)).filter
          (fun t => now - t < st.windowMs) ++ [now]))
        (userId ++ ':' :: getLimitType endpoint)
        = (st.requests (userId ++ ':' :: getLimitType endpoint)).filter
            (fun t => now - t < st.windowMs) ++ [now] := by
      simp [updMap]
    refine ⟨⟨_, _, rfl⟩, ?_, ?_⟩
    · by_cases hg : getLimitType endpoint = "global".data
      · rw [hg]
        rw [updateGlobalCount_global]
        simp
      · rw [updateGlobalCount_requests_ne _ _ _ _
          (fun h => hg (key_tail_inj h))
          (fun h => getLimitType_ne_violations endpoint (key_tail_inj h))]
        dsimp only
        rw [hkey2]
        simp
    · intro hg
      rw [updateGlobalCount_requests_ne _ _ _ _
          (fun h => hg (key_tail_inj h))
          (fun h => getLimitType_ne_violations endpoint (key_tail_inj h))]
      dsimp only
      exact hkey2

/-- Witness for `isAllowed_sliding_window`: a fresh limiter (default
limits, empty history) allows a first `order` request for user `u` at time
5 and appends the timestamp to the `u:trading` window. -/
theorem isAllowed_sliding_window_witness :
    (∃ rem rt, (isAllowed
        (RLState.mk (Limits.mk 10 30 60 5 100) 60000 (fun _ => []) (fun _ => none))
        "u".data "order".data "general".data 5).1 = .allowed rem rt) ∧
    (5 : Int) ∈ (isAllowed
        (RLState.mk (Limits.mk 10 30 60 5 100) 60000 (fun _ => []) (fun _ => none))
        "u".data "order".data "general".data 5).2.requests
        ("u".data ++ ':' :: getLimitType "order".data) ∧
    (getLimitType "order".data ≠ "global".data →
      (isAllowed
        (RLState.mk (Limits.mk 10 30 60 5 100) 60000 (fun _ => []) (fun _ => none))
        "u".data "order".data "general".data 5).2.requests
          ("u".data ++ ':' :: getLimitType "order".data) =
        ((RLState.mk (Limits.mk 10 30 60 5 100) 60000 (fun _ => []) (fun _ => none)).requests
            ("u".data ++ ':' :: getLimitType "order".data)).filter
          (fun t => (5 : Int) - t < 60000) ++ [5]) :=
  (isAllowed_sliding_window
      (RLState.mk (Limits.mk 10 30 60 5 100) 60000 (fun _ => []) (fun _ => none))
      "u".data "order".data "general".data 5 rfl).2 (by decide) rfl

/-- C4: the 3rd (or 4th) rate-limit violation inside the 5-minute violation
window installs a 1-minute block (`blockedUntil = now + 60000`), the 5th
and later a 5-minute block (`now + 300000`); and for the whole duration of
a block — any call strictly before the stored (positive) block time —
`isAllowed` returns `temporarily_blocked` with the positive remaining time
as `retryAfter`, so a blocked user is never allowed until the block
expires. -/
theorem progressive_blocking :
    (∀ (st : RLState) (userId : JSStr) (now : Int),
      (5 ≤ ((st.requests (userId ++ ':' :: "violations".data)).filter
            (fun t => now - t < 300000) ++ [now]).length →
        (addViolation st userId now).blockedUntil userId = some (now + 300000)) ∧
      (3 ≤ ((st.requests (userId ++ ':' :: "violations".data)).filter
            (fun t => now - t < 300000) ++ [now]).length →
       ((st.requests (userId ++ ':' :: "violations".data)).filter
            (fun t => now - t < 300000) ++ [now]).length < 5 →
        (addViolation st userId now).blockedUntil userId = some (now + 60000))) ∧
    (∀ (st : RLState) (userId endpoint exchange : JSStr) (now b : Int),
      st.blockedUntil userId = some b → 0 < b → now < b →
      (isAllowed st userId endpoint exchange now).1 = .blocked (b - now) ∧
      0 < b - now) := by
  constructor
  · intro st userId now
    constructor
    · intro h5
      rw [addViolation_blockedUntil, if_pos h5]
      simp [updMap]
    · intro h3 h5
      rw [addViolation_blockedUntil, if_neg (by omega), if_pos h3]
      simp [updMap]
  · intro st userId endpoint exchange now b hb hpos hlt
    have hblocked : isBlocked st userId now = true := by
      rw [isBlocked, hb]
      simp only [Bool.and_eq_true, Bool.not_eq_true', beq_eq_false_iff_ne,
        decide_eq_true_eq]
      exact ⟨by omega, hlt⟩
    constructor
    · unfold isAllowed
      rw [hblocked]
      simp only [if_true]
      rw [getRetryAfter, hb]
    · omega

/-- Witness for `progressive_blocking`: a user blocked until time 100 is
rejected at time 40 with `retryAfter = 60`. -/
theorem progressive_blocking_witness :
    (isAllowed
        (RLState.mk (Limits.mk 10 30 60 5 100) 60000 (fun _ => [])
          (fun k => if k = "u".data then some 100 else none))
        "u".data "order".data "general".data 40).1 = .blocked (100 - 40) ∧
    (0 : Int) < 100 - 40 :=
  progressive_blocking.2
    (RLState.mk (Limits.mk 10 30 60 5 100) 60000 (fun _ => [])
      (fun k => if k = "u".data then some 100 else none))
    "u".data "order".data "general".data 40 100 (by decide) (by decide) (by decide)

end Agnes
